import Mathlib

/-!
Verification of the tumekulator roster notebook.

The notebook defines three functions: `build_roster`, `get_year_month` and
`to_markdown`.  They are embedded below over a shallow model of the
proleptic Gregorian calendar (the calendar implemented by the Python
`datetime` module and used by `pandas.date_range`).
-/

/-! ## Definitions -/

/-- Gregorian leap-year rule, as implemented by Python `calendar.isleap`. -/
def isLeapYear (y : Nat) : Bool :=
  (y % 4 == 0 && y % 100 != 0) || y % 400 == 0

/-- Number of days of month `m` (1-based) in year `y`; the month-length
table of the Python `datetime` module. -/
def daysInMonth (y m : Nat) : Nat :=
  if m = 2 then (if isLeapYear y then 29 else 28)
  else if m = 4 ∨ m = 6 ∨ m = 9 ∨ m = 11 then 30
  else 31

/-- Days in year `y` before the first day of month `m`. -/
def daysBeforeMonth (y m : Nat) : Nat :=
  ((List.range' 1 (m - 1)).map (daysInMonth y)).sum

/-- Days before January 1 of year `y`. -/
def daysBeforeYear (y : Nat) : Nat :=
  365 * (y - 1) + (y - 1) / 4 + (y - 1) / 400 - (y - 1) / 100

/-- Proleptic-Gregorian ordinal of the date `y-m-d`, with ordinal 1 for
the first day of year 1, exactly as `datetime.date.toordinal`. -/
def toOrdinal (y m d : Nat) : Nat :=
  daysBeforeYear y + daysBeforeMonth y m + d

/-- Full English weekday names, Monday first (the values produced by the
`pandas` method `day_name`, indexed like `datetime.date.weekday`). -/
def dayNames : List String :=
  ["Monday", "Tuesday", "Wednesday", "Thursday", "Friday", "Saturday", "Sunday"]

/-- Full weekday name of the date `y-m-d`.  Ordinal 1 was a Monday, so
the weekday index is `(ordinal + 6) % 7`. -/
def dayName (y m d : Nat) : String :=
  dayNames.getD ((toOrdinal y m d + 6) % 7) ""

/-- A calendar date, the model of a daily `pandas` timestamp. -/
structure Ymd where
  year : Nat
  month : Nat
  day : Nat
deriving DecidableEq

/-- The calendar day following `x` (how a daily `pandas.date_range`
advances from one timestamp to the next). -/
def nextDay (x : Ymd) : Ymd :=
  if x.day < daysInMonth x.year x.month then ⟨x.year, x.month, x.day + 1⟩
  else if x.month < 12 then ⟨x.year, x.month + 1, 1⟩
  else ⟨x.year + 1, 1, 1⟩

/-- List of `n` consecutive calendar days starting at `x`. -/
def listOfDays (x : Ymd) : Nat → List Ymd
  | 0 => []
  | n + 1 => x :: listOfDays (nextDay x) n

/-- First day of the month after `(y, m)`, which is what adding a
one-month `relativedelta` to the first of the month yields. -/
def nextMonthFirst (y m : Nat) : Ymd :=
  if m < 12 then ⟨y, m + 1, 1⟩ else ⟨y + 1, 1, 1⟩

/-- Model of `pandas.date_range(a, b, closed='left')` with daily
frequency: all calendar days `x` with `a ≤ x < b`, that is, the
`toOrdinal b - toOrdinal a` consecutive days starting at `a`. -/
def dateRangeCO (a b : Ymd) : List Ymd :=
  listOfDays a (toOrdinal b.year b.month b.day - toOrdinal a.year a.month a.day)

/-- Left-pad a digit run with the zero character to width `k`. -/
def padZeros (k : Nat) (s : List Char) : List Char :=
  List.replicate (k - s.length) '0' ++ s

/-- Decimal rendering of `n`, zero-padded to width `k` (the behaviour of
the `strftime` directives `%Y`, `%m`, `%d` for in-range values). -/
def fmtNat (k n : Nat) : String :=
  ⟨padZeros k (Nat.toDigits 10 n)⟩

/-- The `strftime` rendering of a date in ISO `%Y-%m-%d` form, as
produced for the `date` column. -/
def formatDate (x : Ymd) : String :=
  fmtNat 4 x.year ++ "-" ++ fmtNat 2 x.month ++ "-" ++ fmtNat 2 x.day

/-- Model of the Python string `join` method: the elements interleaved
with the separator. -/
def joinSep (sep : String) : List String → String
  | [] => ""
  | [s] => s
  | s :: t :: rest => s ++ sep ++ joinSep sep (t :: rest)

/-- Lookup in the `volunteers_by_weekday` dictionary, modelled as an
association list. -/
def lookupKey (vbw : List (String × List String)) (k : String) : Option (List String) :=
  match vbw with
  | [] => none
  | (k', v) :: rest => if k' = k then some v else lookupKey rest k

/-- One row of the roster DataFrame. -/
structure ShiftRecord where
  date : String
  weekday : String
  volunteers : String
  notes : String
deriving DecidableEq

/-- The optional `meeting_time` argument: weekday name, week-of-month
ordinal, start time, end time. -/
structure MeetingTime where
  weekday : String
  ordinal : Int
  startTime : String
  endTime : String
deriving DecidableEq

/-- The notes entry of day `d` of the month: empty, unless a meeting time
is given whose weekday and week window match, in which case the formatted
staff-meeting text is inserted. -/
def notesFor (mt : Option MeetingTime) (wd : String) (d : Nat) : String :=
  match mt with
  | none => ""
  | some mt =>
    if wd = mt.weekday ∧ 7 * (mt.ordinal - 1) ≤ (d : Int) ∧ (d : Int) ≤ 7 * mt.ordinal
    then "Staff meeting " ++ mt.startTime ++ "--" ++ mt.endTime
    else ""

/-- The roster row built for calendar day `x`. -/
def buildRec (vbw : List (String × List String)) (mt : Option MeetingTime)
    (x : Ymd) : ShiftRecord :=
  let wd := dayName x.year x.month x.day
  { date := formatDate x
    weekday := wd
    volunteers := joinSep " & " ((lookupKey vbw wd).getD [])
    notes := notesFor mt wd x.day }

/-- Ordinal of the earliest first-of-month start accepted by a `pandas`
date range: the minimum timestamp is 1677-09-21, so the earliest valid
range start is 1677-10-01. -/
def minStartOrdinal : Nat := toOrdinal 1677 10 1

/-- Ordinal of the latest first-of-month end accepted by a `pandas` date
range: the maximum timestamp is 2262-04-11, so the latest valid range end
is 2262-04-01. -/
def maxEndOrdinal : Nat := toOrdinal 2262 4 1

/-- The inputs on which `build_roster` runs to completion, following its
three failure sources in order: constructing the first date fails outside
the `datetime` year range 1..9999 or month range 1..12; adding a
one-month `relativedelta` to December 9999 fails building year 10000;
and `pandas.date_range` fails when either endpoint falls outside the
representable timestamp range, which for first-of-month endpoints means a
start before 1677-10-01 or an end after 2262-04-01. -/
def validYm (y m : Nat) : Prop :=
  (1 ≤ y ∧ y ≤ 9999 ∧ 1 ≤ m ∧ m ≤ 12) ∧
  ¬(y = 9999 ∧ m = 12) ∧
  minStartOrdinal ≤ toOrdinal y m 1 ∧
  toOrdinal (nextMonthFirst y m).year (nextMonthFirst y m).month (nextMonthFirst y m).day ≤
    maxEndOrdinal

instance (y m : Nat) : Decidable (validYm y m) := by
  unfold validYm
  infer_instance

/-- The notebook function `build_roster`: enumerate the days of the month
as the half-open daily range from the first of the month to the first of
the next month, keep the days whose weekday name is a key of
`volunteers_by_weekday`, and build one row per kept day.  The `none`
result models the errors raised on the way: the `ValueError` of the date
constructor on an invalid year or month, the overflow of the one-month
`relativedelta` at December 9999, and the out-of-bounds error of
`pandas.date_range` outside the representable timestamp range. -/
def build_roster (year month : Nat) (volunteers_by_weekday : List (String × List String))
    (meeting_time : Option MeetingTime) : Option (List ShiftRecord) :=
  if validYm year month then
    let ix := dateRangeCO ⟨year, month, 1⟩ (nextMonthFirst year month)
    let kept := ix.filter
      (fun x => (lookupKey volunteers_by_weekday (dayName x.year x.month x.day)).isSome)
    some (kept.map (buildRec volunteers_by_weekday meeting_time))
  else none

/-- Does the `csv` writer (with minimal quoting, the default used by
`to_csv`) need to quote this field when the delimiter is the pipe?  It
does iff the field contains the delimiter, the quote character, or a
line-break character. -/
def needsQuote (s : String) : Bool :=
  s.data.any (fun c => c == '|' || c == '"' || c == '\n' || c == '\r')

/-- Double every quote character in the field (the escaping applied by
`csv` inside a quoted field). -/
def escapeQuotes (s : String) : String :=
  ⟨s.data.flatMap (fun c => if c == '"' then ['"', '"'] else [c])⟩

/-- One CSV field as written by `to_csv` with the pipe separator: quoted
(with inner quotes doubled) iff it needs quoting, otherwise written
as-is. -/
def csvField (s : String) : String :=
  if needsQuote s then "\"" ++ escapeQuotes s ++ "\"" else s

/-- One output line of `to_csv` with the pipe separator: the escaped
fields joined by the pipe character. -/
def rowLine (fields : List String) : String :=
  joinSep "|" (fields.map csvField)

/-- The four cells of a roster row, in column order. -/
def recordFields (r : ShiftRecord) : List String :=
  [r.date, r.weekday, r.volunteers, r.notes]

/-- The data lines of the table, each terminated by a newline. -/
def bodyLines : List ShiftRecord → String
  | [] => ""
  | r :: rest => rowLine (recordFields r) ++ "\n" ++ bodyLines rest

/-- The notebook function `to_markdown` with no path given: prepend a
`---` row to the roster and render the result with `to_csv` using the
pipe separator and no index — a header line of the column names, the
separator line, then one line per record, every line terminated by a
newline. -/
def to_markdown (f : List ShiftRecord) : String :=
  rowLine ["date", "weekday", "volunteers", "notes"] ++ "\n" ++
    rowLine ["---", "---", "---", "---"] ++ "\n" ++ bodyLines f

/-- Split a character list at every occurrence of `c`; this behaves like
the Python string `split` method. -/
def splitOnChar (c : Char) : List Char → List (List Char)
  | [] => [[]]
  | a :: rest =>
    match splitOnChar c rest with
    | [] => if a = c then [[], []] else [[a]]
    | g :: gs => if a = c then [] :: g :: gs else (a :: g) :: gs

/-- Modelled from the spec: parse a rendered pipe table back into rows of
fields — split the text on newlines, drop the header line and the `---`
separator line, drop blank lines, and split every remaining line on the
pipe character. -/
def parseMarkdown (s : String) : List (List String) :=
  (((splitOnChar '\n' s.data).drop 2).filter (· ≠ [])).map
    (fun line => (splitOnChar '|' line).map (fun cs => (⟨cs⟩ : String)))

/-- Parse a (non-empty, all-digit) character run as a decimal number. -/
def parseNatChars (cs : List Char) : Option Nat :=
  if cs = [] then none
  else if cs.all (·.isDigit) then
    some (cs.foldl (fun acc c => 10 * acc + (c.toNat - '0'.toNat)) 0)
  else none

/-- Model of `pandas.to_datetime` on an ISO date string: split on the
hyphen and read the three numeric parts. -/
def parseDate (s : String) : Option Ymd :=
  match (splitOnChar '-' s.data).map parseNatChars with
  | [some y, some m, some d] => some ⟨y, m, d⟩
  | _ => none

/-- Model of `strftime` restricted to the directives the notebook uses
(`%Y`, `%m`, `%d`); any other character is copied verbatim. -/
def strftimeChars (x : Ymd) : List Char → List Char
  | '%' :: 'Y' :: rest => padZeros 4 (Nat.toDigits 10 x.year) ++ strftimeChars x rest
  | '%' :: 'm' :: rest => padZeros 2 (Nat.toDigits 10 x.month) ++ strftimeChars x rest
  | '%' :: 'd' :: rest => padZeros 2 (Nat.toDigits 10 x.day) ++ strftimeChars x rest
  | c :: rest => c :: strftimeChars x rest
  | [] => []

/-- Failure conditions of `get_year_month`: `emptyRoster` models the
index error of reading entry 0 of an empty column, `parseFailure` the
parser error of `pandas.to_datetime` on a malformed date string. -/
inductive LabelError where
  | emptyRoster
  | parseFailure
deriving DecidableEq

/-- Parse a whole column of date strings; `pandas.to_datetime` on a
column fails if any entry fails. -/
def parseDates : List String → Option (List Ymd)
  | [] => some []
  | s :: rest =>
    match parseDate s, parseDates rest with
    | some x, some xs => some (x :: xs)
    | _, _ => none

/-- The notebook function `get_year_month`: convert the whole `date`
column with `pandas.to_datetime`, format every entry with `strftime`
using the given format, and return entry 0. -/
def get_year_month (roster : List ShiftRecord) (format : String) :
    Except LabelError String :=
  match parseDates (roster.map (fun r => r.date)) with
  | none => .error .parseFailure
  | some xs =>
    match (xs.map (fun x => (⟨strftimeChars x format.data⟩ : String))).head? with
    | none => .error .emptyRoster
    | some s => .ok s

/-- The days of the month `(y, m)`, 1-based. -/
def monthDays (y m : Nat) : List Nat :=
  List.range' 1 (daysInMonth y m)

/-- Strict lexicographic order on the character sequences of two strings;
for equal-length zero-padded date strings this is chronological order. -/
def dateLt (s t : String) : Prop := List.Lex (· < ·) s.data t.data

instance (s t : String) : Decidable (dateLt s t) :=
  inferInstanceAs (Decidable (List.Lex (· < ·) s.data t.data))

/-- A field is clean when it contains none of the characters that force
CSV quoting: the separator, the quote character, line breaks. -/
def cleanField (s : String) : Prop :=
  ∀ c ∈ s.data, ¬(c = '|' ∨ c = '"' ∨ c = '\n' ∨ c = '\r')

instance (s : String) : Decidable (cleanField s) :=
  inferInstanceAs (Decidable (∀ c ∈ s.data, ¬(c = '|' ∨ c = '"' ∨ c = '\n' ∨ c = '\r')))

/-- A record is clean when all four of its cells are clean. -/
def cleanRec (r : ShiftRecord) : Prop := ∀ s ∈ recordFields r, cleanField s

instance (r : ShiftRecord) : Decidable (cleanRec r) :=
  inferInstanceAs (Decidable (∀ s ∈ recordFields r, cleanField s))

/-- Modelled from the spec: the "simple joining" body the spec ascribes
to the renderer — every data row is the four field strings joined by the
pipe character as-is. -/
def plainBody : List ShiftRecord → String
  | [] => ""
  | r :: rest => joinSep "|" (recordFields r) ++ "\n" ++ plainBody rest

/-- Modelled from the spec: the whole "simple joining" table. -/
def plainTable (f : List ShiftRecord) : String :=
  "date|weekday|volunteers|notes" ++ "\n" ++ "---|---|---|---" ++ "\n" ++ plainBody f

/-- The mapping used in the notebook demonstration cell. -/
def sampleVbw : List (String × List String) := [("Sunday", ["?", "?"])]

/-- The roster the notebook demonstration cell prints. -/
def sampleRoster : List ShiftRecord :=
  [⟨"2021-01-03", "Sunday", "? & ?", ""⟩,
   ⟨"2021-01-10", "Sunday", "? & ?", ""⟩,
   ⟨"2021-01-17", "Sunday", "? & ?", ""⟩,
   ⟨"2021-01-24", "Sunday", "? & ?", ""⟩,
   ⟨"2021-01-31", "Sunday", "? & ?", ""⟩]

/-- The roster built for January 2021 with a first-Sunday meeting. -/
def meetingRoster : List ShiftRecord :=
  [⟨"2021-01-03", "Sunday", "A & B", "Staff meeting 15:00--16:00"⟩,
   ⟨"2021-01-10", "Sunday", "A & B", ""⟩,
   ⟨"2021-01-17", "Sunday", "A & B", ""⟩,
   ⟨"2021-01-24", "Sunday", "A & B", ""⟩,
   ⟨"2021-01-31", "Sunday", "A & B", ""⟩]

/-- The roster built for January 2021 Thursdays with a second-week
meeting; days 7 and 14 are both Thursdays inside the window. -/
def thursdayRoster : List ShiftRecord :=
  [⟨"2021-01-07", "Thursday", "T", "Staff meeting 10:00--11:00"⟩,
   ⟨"2021-01-14", "Thursday", "T", "Staff meeting 10:00--11:00"⟩,
   ⟨"2021-01-21", "Thursday", "T", ""⟩,
   ⟨"2021-01-28", "Thursday", "T", ""⟩]

/-! ## Calendar lemmas -/

theorem build_roster_demo_cell : build_roster 2021 1 sampleVbw none = some sampleRoster := by
  decide

theorem isLeapYear_iff (y : Nat) :
    isLeapYear y = true ↔ ((y % 4 = 0 ∧ ¬ y % 100 = 0) ∨ y % 400 = 0) := by
  simp [isLeapYear]

set_option maxHeartbeats 1000000 in
theorem daysBeforeYear_succ (y : Nat) (h : 1 ≤ y) :
    daysBeforeYear (y + 1) =
      daysBeforeYear y + 365 + (if isLeapYear y then 1 else 0) := by
  have hiff := isLeapYear_iff y
  cases hy : isLeapYear y with
  | false =>
    rw [hy] at hiff
    simp only [Bool.false_eq_true, false_iff] at hiff
    simp [hy]
    unfold daysBeforeYear
    omega
  | true =>
    rw [hy] at hiff
    simp only [true_iff] at hiff
    simp [hy]
    unfold daysBeforeYear
    omega

theorem daysInMonth_pos (y m : Nat) : 1 ≤ daysInMonth y m := by
  unfold daysInMonth
  split
  · split <;> omega
  · split <;> omega

theorem daysInMonth_le (y m : Nat) : daysInMonth y m ≤ 31 := by
  unfold daysInMonth
  split
  · split <;> omega
  · split <;> omega

theorem daysBeforeMonth_succ (y m : Nat) (h : 1 ≤ m) :
    daysBeforeMonth y (m + 1) = daysBeforeMonth y m + daysInMonth y m := by
  obtain ⟨n, rfl⟩ : ∃ n, m = n + 1 := ⟨m - 1, by omega⟩
  show ((List.range' 1 (n + 1)).map (daysInMonth y)).sum = _
  have h1 : List.range' 1 (n + 1) = List.range' 1 n ++ [1 + n] := by
    simpa using @List.range'_concat 1 1 n
  rw [h1, List.map_append, List.sum_append]
  have h2 : 1 + n = n + 1 := by omega
  rw [h2]
  simp [daysBeforeMonth]

theorem daysBeforeMonth_twelve (y : Nat) :
    daysBeforeMonth y 12 = 334 + (if isLeapYear y then 1 else 0) := by
  cases hy : isLeapYear y with
  | false => simp [daysBeforeMonth, List.range', daysInMonth, hy]
  | true => simp [daysBeforeMonth, List.range', daysInMonth, hy]

/-- The half-open interval from the first of the month to the first of
the next month spans exactly the length of the month, for 28/29/30/31-day
months and across the December year rollover alike. -/
theorem ordinal_span (y m : Nat) (hm1 : 1 ≤ m) (hm2 : m ≤ 12) (hy : 1 ≤ y) :
    toOrdinal (nextMonthFirst y m).year (nextMonthFirst y m).month (nextMonthFirst y m).day -
      toOrdinal y m 1 = daysInMonth y m := by
  by_cases h : m < 12
  · have : nextMonthFirst y m = ⟨y, m + 1, 1⟩ := by simp [nextMonthFirst, h]
    rw [this]
    show daysBeforeYear y + daysBeforeMonth y (m + 1) + 1 -
      (daysBeforeYear y + daysBeforeMonth y m + 1) = _
    rw [daysBeforeMonth_succ y m hm1]
    omega
  · have hm : m = 12 := by omega
    subst hm
    have : nextMonthFirst y 12 = ⟨y + 1, 1, 1⟩ := by simp [nextMonthFirst]
    rw [this]
    show daysBeforeYear (y + 1) + daysBeforeMonth (y + 1) 1 + 1 -
      (daysBeforeYear y + daysBeforeMonth y 12 + 1) = _
    rw [daysBeforeYear_succ y hy, daysBeforeMonth_twelve y]
    have h1 : daysBeforeMonth (y + 1) 1 = 0 := rfl
    have h2 : daysInMonth y 12 = 31 := rfl
    rw [h1, h2]
    cases isLeapYear y <;> simp

theorem listOfDays_eq_range' (y m : Nat) :
    ∀ (k d : Nat), 1 ≤ d → d + k ≤ daysInMonth y m + 1 →
      listOfDays ⟨y, m, d⟩ k = (List.range' d k).map (fun j => (⟨y, m, j⟩ : Ymd)) := by
  intro k
  induction k with
  | zero => intro d _ _; rfl
  | succ n ih =>
    intro d hd hk
    show (⟨y, m, d⟩ : Ymd) :: listOfDays (nextDay ⟨y, m, d⟩) n = _
    have hr : List.range' d (n + 1) = d :: List.range' (d + 1) n := rfl
    rw [hr, List.map_cons]
    cases n with
    | zero => rfl
    | succ j =>
      have hlt : d < daysInMonth y m := by omega
      have hnext : nextDay ⟨y, m, d⟩ = ⟨y, m, d + 1⟩ := by simp [nextDay, hlt]
      rw [hnext, ih (d + 1) (by omega) (by omega)]

/-- On valid input, `build_roster` returns the record of every day of the
month whose weekday name is a key of the mapping, in calendar order. -/
theorem build_roster_eq (y m : Nat) (vbw : List (String × List String))
    (mt : Option MeetingTime) (hv : validYm y m) :
    build_roster y m vbw mt =
      some (((monthDays y m).filter (fun d => (lookupKey vbw (dayName y m d)).isSome)).map
        (fun d => buildRec vbw mt ⟨y, m, d⟩)) := by
  unfold build_roster
  rw [if_pos hv]
  unfold dateRangeCO
  rw [ordinal_span y m hv.1.2.2.1 hv.1.2.2.2 hv.1.1]
  rw [listOfDays_eq_range' y m (daysInMonth y m) 1 (by omega) (by omega)]
  rw [show (List.range' 1 (daysInMonth y m)) = monthDays y m from rfl]
  dsimp only
  rw [List.filter_map, List.map_map]
  rfl

/-- A successful `build_roster` call implies the inputs were accepted by
the date constructor. -/
theorem build_roster_some (y m : Nat) (vbw : List (String × List String))
    (mt : Option MeetingTime) (records : List ShiftRecord)
    (h : build_roster y m vbw mt = some records) :
    validYm y m := by
  by_contra hc
  unfold build_roster at h
  rw [if_neg hc] at h
  exact Option.noConfusion h

/-! ## String-order lemmas -/

theorem lexAppend (p l1 l2 : List Char) (h : List.Lex (· < ·) l1 l2) :
    List.Lex (· < ·) (p ++ l1) (p ++ l2) := by
  induction p with
  | nil => exact h
  | cons c cs ih => exact List.Lex.cons ih

theorem dateLt_append (p s t : String) (h : dateLt s t) : dateLt (p ++ s) (p ++ t) := by
  show List.Lex _ (p ++ s).data (p ++ t).data
  rw [String.data_append, String.data_append]
  exact lexAppend p.data s.data t.data h

theorem pad2_mono :
    ∀ d1, d1 < 32 → ∀ d2, d2 < 32 → d1 < d2 → dateLt (fmtNat 2 d1) (fmtNat 2 d2) := by
  decide

theorem formatDate_mono (y m d1 d2 : Nat) (h1 : d1 < 32) (h2 : d2 < 32) (h : d1 < d2) :
    dateLt (formatDate ⟨y, m, d1⟩) (formatDate ⟨y, m, d2⟩) :=
  dateLt_append (fmtNat 4 y ++ "-" ++ fmtNat 2 m ++ "-") _ _ (pad2_mono d1 h1 d2 h2 h)

/-! ## Weekday-residue lemmas -/

theorem dayNames_getD_inj :
    ∀ i, i < 7 → ∀ j, j < 7 → dayNames.getD i "" = dayNames.getD j "" → i = j := by
  decide

theorem dayName_mod (y m d1 d2 : Nat) (h : dayName y m d1 = dayName y m d2) :
    d1 % 7 = d2 % 7 := by
  have h1 : (toOrdinal y m d1 + 6) % 7 < 7 := Nat.mod_lt _ (by omega)
  have h2 : (toOrdinal y m d2 + 6) % 7 < 7 := Nat.mod_lt _ (by omega)
  have := dayNames_getD_inj _ h1 _ h2 h
  unfold toOrdinal at this
  omega

theorem staff_note_ne (a b : String) : ("Staff meeting " ++ a ++ "--" ++ b) ≠ "" := by
  intro hc
  have hd := congrArg String.data hc
  rw [String.data_append, String.data_append, String.data_append] at hd
  have : "Staff meeting ".data = [] := (List.append_eq_nil.mp
    ((List.append_eq_nil.mp ((List.append_eq_nil.mp hd).1)).1)).1
  exact absurd this (by decide)

/-- In a strictly increasing list of day numbers that all share one
residue modulo 7 and all lie in a window of width 7, there is no room for
a third element. -/
theorem window_length_le_two (l : List Nat) (lo : Int)
    (hp : List.Pairwise (· < ·) l)
    (hres : ∀ d1 ∈ l, ∀ d2 ∈ l, d1 % 7 = d2 % 7)
    (hbd : ∀ d ∈ l, lo ≤ (d : Int) ∧ (d : Int) ≤ lo + 7) :
    l.length ≤ 2 := by
  match l with
  | [] => simp
  | [_] => simp
  | [_, _] => simp
  | a :: b :: c :: rest =>
    exfalso
    obtain ⟨ha, hp1⟩ := List.pairwise_cons.mp hp
    obtain ⟨hb, _⟩ := List.pairwise_cons.mp hp1
    have hab : a < b := ha b (by simp)
    have hbc : b < c := hb c (by simp)
    have r1 := hres a (by simp) b (by simp)
    have r2 := hres b (by simp) c (by simp)
    have b1 := hbd a (by simp)
    have b3 := hbd c (by simp)
    omega

/-! ## CSV and splitting lemmas -/

theorem csvField_clean (s : String) (h : cleanField s) : csvField s = s := by
  have hq : needsQuote s = false := by
    rw [needsQuote, List.any_eq_false]
    intro c hm
    have hc := h c hm
    simp only [Bool.or_eq_true, beq_iff_eq]
    tauto
  simp [csvField, hq]

theorem splitOnChar_cons (c a : Char) (rest : List Char) :
    splitOnChar c (a :: rest) =
      (match splitOnChar c rest with
        | [] => if a = c then [[], []] else [[a]]
        | g :: gs => if a = c then [] :: g :: gs else (a :: g) :: gs) := rfl

theorem splitOnChar_ne_nil (c : Char) (l : List Char) : splitOnChar c l ≠ [] := by
  induction l with
  | nil => simp [splitOnChar]
  | cons a rest ih =>
    rw [splitOnChar_cons]
    rcases hsp : splitOnChar c rest with _ | ⟨g, gs⟩
    · exact absurd hsp ih
    · by_cases hac : a = c <;> simp [hac]

theorem splitOnChar_no_sep (c : Char) (l : List Char) (h : c ∉ l) :
    splitOnChar c l = [l] := by
  induction l with
  | nil => rfl
  | cons a rest ih =>
    have hr : splitOnChar c rest = [rest] := ih (fun hm => h (by simp [hm]))
    have hac : ¬ a = c := fun he => h (by simp [he])
    rw [splitOnChar_cons, hr]
    simp [hac]

theorem splitOnChar_append (c : Char) (a b : List Char) (h : c ∉ a) :
    splitOnChar c (a ++ c :: b) = a :: splitOnChar c b := by
  induction a with
  | nil =>
    show splitOnChar c (c :: b) = [] :: splitOnChar c b
    rcases hsp : splitOnChar c b with _ | ⟨g, gs⟩
    · exact absurd hsp (splitOnChar_ne_nil c b)
    · rw [splitOnChar_cons, hsp]
      simp
  | cons x xs ih =>
    have hx : ¬ x = c := fun he => h (by simp [he])
    have hxs : c ∉ xs := fun hm => h (by simp [hm])
    show splitOnChar c (x :: (xs ++ c :: b)) = (x :: xs) :: splitOnChar c b
    rw [splitOnChar_cons, ih hxs]
    simp [hx]

theorem rowLine_clean_data (r : ShiftRecord) (h : cleanRec r) :
    (rowLine (recordFields r)).data =
      r.date.data ++ '|' :: (r.weekday.data ++ '|' :: (r.volunteers.data ++ '|' :: r.notes.data)) := by
  have h4 : (recordFields r).map csvField = recordFields r := by
    have : (recordFields r).map csvField = (recordFields r).map id := by
      apply List.map_congr_left
      intro s hs
      rw [csvField_clean s (h s hs)]
      rfl
    rw [this, List.map_id]
  unfold rowLine
  rw [h4]
  show (joinSep "|" [r.date, r.weekday, r.volunteers, r.notes]).data = _
  show (r.date ++ "|" ++ (r.weekday ++ "|" ++ (r.volunteers ++ "|" ++ r.notes))).data = _
  simp [String.data_append]

theorem no_newline_in_row (r : ShiftRecord) (h : cleanRec r) :
    '\n' ∉ (rowLine (recordFields r)).data := by
  rw [rowLine_clean_data r h]
  intro hm
  simp only [List.mem_append, List.mem_cons] at hm
  rcases hm with h1 | h1 | h1
  · exact (h r.date (by simp [recordFields]) '\n' h1) (by simp)
  · exact absurd h1 (by decide)
  rcases h1 with h1 | h1 | h1
  · exact (h r.weekday (by simp [recordFields]) '\n' h1) (by simp)
  · exact absurd h1 (by decide)
  rcases h1 with h1 | h1 | h1
  · exact (h r.volunteers (by simp [recordFields]) '\n' h1) (by simp)
  · exact absurd h1 (by decide)
  · exact (h r.notes (by simp [recordFields]) '\n' h1) (by simp)

theorem row_data_ne_nil (r : ShiftRecord) (h : cleanRec r) :
    (rowLine (recordFields r)).data ≠ [] := by
  rw [rowLine_clean_data r h]
  simp

theorem bodyLines_split (f : List ShiftRecord) (h : ∀ r ∈ f, cleanRec r) :
    splitOnChar '\n' ((bodyLines f).data) =
      (f.map (fun r => (rowLine (recordFields r)).data)) ++ [[]] := by
  induction f with
  | nil => rfl
  | cons r rest ih =>
    show splitOnChar '\n' ((rowLine (recordFields r) ++ "\n" ++ bodyLines rest).data) = _
    have hd : (rowLine (recordFields r) ++ "\n" ++ bodyLines rest).data =
        (rowLine (recordFields r)).data ++ '\n' :: (bodyLines rest).data := by
      simp [String.data_append]
    rw [hd, splitOnChar_append '\n' _ _ (no_newline_in_row r (h r (by simp)))]
    rw [ih (fun r' hr' => h r' (by simp [hr']))]
    rfl

theorem cleanField_no_pipe (s : String) (h : cleanField s) : '|' ∉ s.data :=
  fun hm => (h _ hm) (by simp)

theorem splitRow_fields (r : ShiftRecord) (h : cleanRec r) :
    splitOnChar '|' ((rowLine (recordFields r)).data) =
      [r.date.data, r.weekday.data, r.volunteers.data, r.notes.data] := by
  rw [rowLine_clean_data r h]
  rw [splitOnChar_append '|' _ _ (cleanField_no_pipe _ (h r.date (by simp [recordFields])))]
  rw [splitOnChar_append '|' _ _ (cleanField_no_pipe _ (h r.weekday (by simp [recordFields])))]
  rw [splitOnChar_append '|' _ _ (cleanField_no_pipe _ (h r.volunteers (by simp [recordFields])))]
  rw [splitOnChar_no_sep '|' _ (cleanField_no_pipe _ (h r.notes (by simp [recordFields])))]

/-! ## Labeler lemma -/

theorem parseDates_isSome (l : List String) (h : ∀ s ∈ l, (parseDate s).isSome) :
    ∃ xs, parseDates l = some xs ∧ xs.length = l.length := by
  induction l with
  | nil => exact ⟨[], rfl, rfl⟩
  | cons s rest ih =>
    obtain ⟨x, hx⟩ := Option.isSome_iff_exists.mp (h s (by simp))
    obtain ⟨xs, hxs, hlen⟩ := ih (fun s' hs' => h s' (by simp [hs']))
    refine ⟨x :: xs, ?_, by simp [hlen]⟩
    show (match parseDate s, parseDates rest with
      | some x, some xs => some (x :: xs)
      | _, _ => none) = some (x :: xs)
    rw [hx, hxs]

/-! ## Claim theorems -/

/-- C1: for every valid year and month and every mapping, `build_roster`
returns exactly one record per calendar day of the month whose weekday
name is a key of the mapping and no others; the enumerated day interval
is the half-open month span, correct for every month length and for the
December-to-January rollover. -/
theorem c1_day_selection (y m : Nat) (vbw : List (String × List String))
    (mt : Option MeetingTime) (records : List ShiftRecord)
    (h : build_roster y m vbw mt = some records) :
    records.map (fun r => r.date) =
      ((monthDays y m).filter (fun d => (lookupKey vbw (dayName y m d)).isSome)).map
        (fun d => formatDate ⟨y, m, d⟩) ∧
    records.length =
      ((monthDays y m).filter (fun d => (lookupKey vbw (dayName y m d)).isSome)).length := by
  have hv := build_roster_some y m vbw mt records h
  rw [build_roster_eq y m vbw mt hv] at h
  obtain rfl := (Option.some.inj h).symm
  refine ⟨?_, by rw [List.length_map]⟩
  rw [List.map_map]
  apply List.map_congr_left
  intro d _
  rfl

theorem c1_day_selection_w :
    sampleRoster.map (fun r => r.date) =
      ((monthDays 2021 1).filter
        (fun d => (lookupKey sampleVbw (dayName 2021 1 d)).isSome)).map
        (fun d => formatDate ⟨2021, 1, d⟩) :=
  (c1_day_selection 2021 1 sampleVbw none sampleRoster (by decide)).1

/-- C2: with a meeting time, every record whose weekday equals the
meeting weekday and whose day-of-month lies in the seven-day window gets
the literal staff-meeting note, and every other record has empty notes;
in particular the January 2021 first-Sunday example annotates exactly the
2021-01-03 record. -/
theorem c2_meeting_window (y m : Nat) (vbw : List (String × List String))
    (mt : MeetingTime) (records : List ShiftRecord)
    (h : build_roster y m vbw (some mt) = some records) :
    (∀ r ∈ records, ∃ d : Nat, r.date = formatDate ⟨y, m, d⟩ ∧
      r.notes = (if dayName y m d = mt.weekday ∧
          7 * (mt.ordinal - 1) ≤ (d : Int) ∧ (d : Int) ≤ 7 * mt.ordinal
        then "Staff meeting " ++ mt.startTime ++ "--" ++ mt.endTime else "")) ∧
    build_roster 2021 1 [("Sunday", ["A", "B"])] (some ⟨"Sunday", 1, "15:00", "16:00"⟩) =
      some meetingRoster := by
  refine ⟨?_, by decide⟩
  have hv := build_roster_some y m vbw (some mt) records h
  rw [build_roster_eq y m vbw (some mt) hv] at h
  obtain rfl := (Option.some.inj h).symm
  intro r hr
  obtain ⟨d, _, rfl⟩ := List.mem_map.mp hr
  exact ⟨d, rfl, rfl⟩

theorem c2_meeting_window_w :
    build_roster 2021 1 [("Sunday", ["A", "B"])] (some ⟨"Sunday", 1, "15:00", "16:00"⟩) =
      some meetingRoster :=
  (c2_meeting_window 2021 1 [("Sunday", ["A", "B"])] ⟨"Sunday", 1, "15:00", "16:00"⟩
    meetingRoster (by decide)).2

/-- C3, counterexample to the claim as stated: for January 2021 with a
meeting on the second-week Thursday, the window covers days 7 through 14,
both of which are Thursdays, so two records carry a non-empty note — not
at most one. -/
theorem c3_cex :
    ¬ ((((build_roster 2021 1 [("Thursday", ["T"])]
          (some ⟨"Thursday", 2, "10:00", "11:00"⟩)).getD []).filter
        (fun r => r.notes != "")).length ≤ 1) := by
  decide

/-- C3, amended: the day window spans eight days inclusive, so up to two
days of the meeting weekday can fall inside it (its two endpoints); every
roster built with a meeting time of week ordinal at least one therefore
contains at most two records with a non-empty notes field, and two are
possible. -/
theorem c3_at_most_two (y m : Nat) (vbw : List (String × List String))
    (mt : MeetingTime) (records : List ShiftRecord) (hk : 1 ≤ mt.ordinal)
    (h : build_roster y m vbw (some mt) = some records) :
    (records.filter (fun r => r.notes != "")).length ≤ 2 := by
  have hv := build_roster_some y m vbw (some mt) records h
  rw [build_roster_eq y m vbw (some mt) hv] at h
  obtain rfl := (Option.some.inj h).symm
  rw [List.filter_map, List.length_map]
  set l := ((monthDays y m).filter (fun d => (lookupKey vbw (dayName y m d)).isSome)).filter
    ((fun r => r.notes != "") ∘ (fun d => buildRec vbw (some mt) ⟨y, m, d⟩)) with hl
  have hcond : ∀ d ∈ l, dayName y m d = mt.weekday ∧
      7 * (mt.ordinal - 1) ≤ (d : Int) ∧ (d : Int) ≤ 7 * mt.ordinal := by
    intro d hd
    have hmem := (List.mem_filter.mp hd).2
    simp only [Function.comp] at hmem
    by_cases hc : dayName y m d = mt.weekday ∧
        7 * (mt.ordinal - 1) ≤ (d : Int) ∧ (d : Int) ≤ 7 * mt.ordinal
    · exact hc
    · exfalso
      have : (buildRec vbw (some mt) ⟨y, m, d⟩).notes = "" := by
        show (if dayName y m d = mt.weekday ∧
            7 * (mt.ordinal - 1) ≤ (d : Int) ∧ (d : Int) ≤ 7 * mt.ordinal
          then "Staff meeting " ++ mt.startTime ++ "--" ++ mt.endTime else "") = ""
        rw [if_neg hc]
      rw [this] at hmem
      simp at hmem
  apply window_length_le_two l (7 * (mt.ordinal - 1))
  · exact ((List.pairwise_lt_range' 1 (daysInMonth y m)).filter _).filter _
  · intro d1 h1 d2 h2
    exact dayName_mod y m d1 d2 ((hcond d1 h1).1.trans (hcond d2 h2).1.symm)
  · intro d hd
    have := (hcond d hd).2
    constructor
    · exact this.1
    · have h7 : 7 * mt.ordinal = 7 * (mt.ordinal - 1) + 7 := by ring
      omega

theorem c3_at_most_two_w :
    (thursdayRoster.filter (fun r => r.notes != "")).length ≤ 2 :=
  c3_at_most_two 2021 1 [("Thursday", ["T"])] ⟨"Thursday", 2, "10:00", "11:00"⟩
    thursdayRoster (by decide) (by decide)

/-- C4, counterexample to the claim as stated: a volunteers field that
itself contains a pipe character is CSV-quoted by the renderer, so the
output is not the four field strings joined by the pipe as-is. -/
theorem c4_cex :
    ¬ (to_markdown ((build_roster 2021 1 [("Sunday", ["A|B"])] none).getD []) =
      plainTable ((build_roster 2021 1 [("Sunday", ["A|B"])] none).getD [])) := by
  decide

/-- C4, amended: the rendered output uses the literal pipe character as
the column separator, and a data row is exactly the four field strings
joined by the pipe as-is whenever no field contains a pipe, a double
quote, or a line break; a field containing such a character is CSV-quoted
instead. -/
theorem c4_as_is_when_clean (f : List ShiftRecord)
    (h : ∀ r ∈ f, ∀ s ∈ recordFields r, cleanField s) :
    to_markdown f = plainTable f := by
  unfold to_markdown plainTable
  have hhdr : rowLine ["date", "weekday", "volunteers", "notes"] =
      "date|weekday|volunteers|notes" := by decide
  have hsep : rowLine ["---", "---", "---", "---"] = "---|---|---|---" := by decide
  rw [hhdr, hsep]
  have hbody : bodyLines f = plainBody f := by
    induction f with
    | nil => rfl
    | cons r rest ih =>
      show rowLine (recordFields r) ++ "\n" ++ bodyLines rest =
        joinSep "|" (recordFields r) ++ "\n" ++ plainBody rest
      have hrow : rowLine (recordFields r) = joinSep "|" (recordFields r) := by
        unfold rowLine
        congr 1
        have : (recordFields r).map csvField = (recordFields r).map id := by
          apply List.map_congr_left
          intro s hs
          rw [csvField_clean s (h r (by simp) s hs)]
          rfl
        rw [this, List.map_id]
      rw [hrow, ih (fun r' hr' => h r' (by simp [hr']))]
  rw [hbody]

theorem c4_as_is_when_clean_w : to_markdown sampleRoster = plainTable sampleRoster :=
  c4_as_is_when_clean sampleRoster (by decide)

/-- C5: in every roster returned by `build_roster`, the records are
strictly ascending in their date strings (hence dates are duplicate-free)
and every weekday field is the weekday name of the same calendar day the
date field was formatted from. -/
theorem c5_sorted_consistent (y m : Nat) (vbw : List (String × List String))
    (mt : Option MeetingTime) (records : List ShiftRecord)
    (h : build_roster y m vbw mt = some records) :
    List.Pairwise (fun a b => dateLt a.date b.date) records ∧
    ∀ r ∈ records, ∃ x : Ymd,
      r.date = formatDate x ∧ r.weekday = dayName x.year x.month x.day := by
  have hv := build_roster_some y m vbw mt records h
  rw [build_roster_eq y m vbw mt hv] at h
  obtain rfl := (Option.some.inj h).symm
  constructor
  · rw [List.pairwise_map]
    have hp : List.Pairwise (· < ·)
        ((monthDays y m).filter (fun d => (lookupKey vbw (dayName y m d)).isSome)) :=
      (List.pairwise_lt_range' 1 (daysInMonth y m)).filter _
    refine hp.imp_of_mem ?_
    intro d1 d2 hd1 hd2 hlt
    have hb1 : d1 < 32 := by
      have := (List.mem_range'_1.mp (List.mem_of_mem_filter hd1)).2
      have := daysInMonth_le y m
      omega
    have hb2 : d2 < 32 := by
      have := (List.mem_range'_1.mp (List.mem_of_mem_filter hd2)).2
      have := daysInMonth_le y m
      omega
    exact formatDate_mono y m d1 d2 hb1 hb2 hlt
  · intro r hr
    obtain ⟨d, _, rfl⟩ := List.mem_map.mp hr
    exact ⟨⟨y, m, d⟩, rfl, rfl⟩

theorem c5_sorted_consistent_w :
    List.Pairwise (fun a b => dateLt a.date b.date) sampleRoster ∧
    ∀ r ∈ sampleRoster, ∃ x : Ymd,
      r.date = formatDate x ∧ r.weekday = dayName x.year x.month x.day :=
  c5_sorted_consistent 2021 1 sampleVbw none sampleRoster (by decide)

/-- C6: the volunteers field of every record is the list of the mapping
at the record weekday joined with the ampersand separator, in input
order, without deduplication or trimming. -/
theorem c6_volunteers_join (y m : Nat) (vbw : List (String × List String))
    (mt : Option MeetingTime) (records : List ShiftRecord)
    (h : build_roster y m vbw mt = some records) :
    ∀ r ∈ records, ∃ names : List String,
      lookupKey vbw r.weekday = some names ∧ r.volunteers = joinSep " & " names := by
  have hv := build_roster_some y m vbw mt records h
  rw [build_roster_eq y m vbw mt hv] at h
  obtain rfl := (Option.some.inj h).symm
  intro r hr
  obtain ⟨d, hd, rfl⟩ := List.mem_map.mp hr
  have hk := (List.mem_filter.mp hd).2
  obtain ⟨names, hn⟩ := Option.isSome_iff_exists.mp (by simpa using hk)
  refine ⟨names, ?_, ?_⟩
  · show lookupKey vbw (dayName y m d) = some names
    exact hn
  · show joinSep " & " ((lookupKey vbw (dayName y m d)).getD []) = _
    rw [hn]
    rfl

theorem c6_volunteers_join_w :
    ∃ names : List String,
      lookupKey sampleVbw "Sunday" = some names ∧ "? & ?" = joinSep " & " names :=
  c6_volunteers_join 2021 1 sampleVbw none sampleRoster (by decide)
    ⟨"2021-01-03", "Sunday", "? & ?", ""⟩ (by decide)

/-- C7, counterexample to the claim as stated: the failure region is not
a bad-month condition joined with a year-only validity condition.  Both
September and October are months inside 1 through 12 and the year 1677
is inside the date-constructor range 1 through 9999, yet the program
fails for September 1677 (its range start, 1677-09-01, precedes the
minimum representable timestamp) while it succeeds for October 1677 — so
no notion of an invalid year can separate the two. -/
theorem c7_cex :
    build_roster 1677 9 [] none = none ∧
    (build_roster 1677 10 [] none).isSome = true ∧
    (1 ≤ 9 ∧ 9 ≤ 12) ∧ (1 ≤ 10 ∧ 10 ≤ 12) ∧ (1 ≤ 1677 ∧ 1677 ≤ 9999) := by
  decide

/-- C7, amended: `build_roster` fails exactly when the month is outside
1 through 12, or the year is outside the date-constructor range 1
through 9999, or the month is December 9999 (the one-month rollover
overflows), or the month lies outside the window of first-of-month
endpoints representable as timestamps, October 1677 through March 2262 —
a boundary that depends on the month as well as the year.  An empty
mapping is still not an error: it yields the empty record sequence. -/
theorem c7_failure_boundary (y m : Nat) (vbw : List (String × List String))
    (mt : Option MeetingTime) :
    ((build_roster y m vbw mt).isSome ↔ validYm y m) ∧
    (validYm y m → build_roster y m [] mt = some []) := by
  constructor
  · unfold build_roster
    split
    case isTrue hv => simpa using hv
    case isFalse hv => simpa using hv
  · intro hv
    rw [build_roster_eq y m [] mt hv]
    simp [lookupKey]

theorem c7_failure_boundary_w : build_roster 2021 1 [] none = some [] :=
  (c7_failure_boundary 2021 1 [] none).2 (by decide)

/-- C8: `get_year_month` fails with the empty-roster condition exactly
when the record sequence is empty; on a non-empty roster of parseable
dates it returns the first record date formatted with the given format
string. -/
theorem c8_label (roster : List ShiftRecord) (fmt : String) :
    (get_year_month roster fmt = .error .emptyRoster ↔ roster = []) ∧
    (∀ r rest, roster = r :: rest →
      (∀ r' ∈ roster, (parseDate r'.date).isSome) →
      ∀ x, parseDate r.date = some x →
      get_year_month roster fmt = .ok ⟨strftimeChars x fmt.data⟩) := by
  constructor
  · constructor
    · intro he
      by_contra hc
      obtain ⟨r, rest, rfl⟩ : ∃ r rest, roster = r :: rest := by
        cases roster with
        | nil => exact absurd rfl hc
        | cons r rest => exact ⟨r, rest, rfl⟩
      unfold get_year_month at he
      rcases hp : parseDate r.date with _ | x <;>
        rcases hps : parseDates (rest.map (fun r' => r'.date)) with _ | xs <;>
        rw [List.map_cons] at he <;>
        rw [show parseDates (r.date :: rest.map (fun r' => r'.date)) =
          (match parseDate r.date, parseDates (rest.map (fun r' => r'.date)) with
            | some x, some xs => some (x :: xs)
            | _, _ => none) from rfl, hp, hps] at he <;>
        simp at he
    · intro he
      subst he
      rfl
  · intro r rest hrr hall x hx
    subst hrr
    have hrest : ∀ s ∈ rest.map (fun r' => r'.date), (parseDate s).isSome := by
      intro s hs
      obtain ⟨r', hr', rfl⟩ := List.mem_map.mp hs
      exact hall r' (by simp [hr'])
    obtain ⟨xs, hxs, _⟩ := parseDates_isSome _ hrest
    unfold get_year_month
    rw [List.map_cons]
    rw [show parseDates (r.date :: rest.map (fun r' => r'.date)) =
      (match parseDate r.date, parseDates (rest.map (fun r' => r'.date)) with
        | some x, some xs => some (x :: xs)
        | _, _ => none) from rfl, hx, hxs]
    rfl

theorem c8_label_w :
    get_year_month sampleRoster "%Y%m" = .ok "202101" :=
  (c8_label sampleRoster "%Y%m").2 ⟨"2021-01-03", "Sunday", "? & ?", ""⟩
    [⟨"2021-01-10", "Sunday", "? & ?", ""⟩,
     ⟨"2021-01-17", "Sunday", "? & ?", ""⟩,
     ⟨"2021-01-24", "Sunday", "? & ?", ""⟩,
     ⟨"2021-01-31", "Sunday", "? & ?", ""⟩] rfl (by decide) ⟨2021, 1, 3⟩ (by decide)

set_option maxRecDepth 4000 in
/-- C9, counterexample to the claim as stated: a roster with a pipe
inside a volunteers field renders that field CSV-quoted, and the naive
pipe-splitting parse does not recover the original tuples. -/
theorem c9_cex :
    parseMarkdown (to_markdown ((build_roster 2021 1 [("Sunday", ["X|Y"])] none).getD [])) ≠
      ((build_roster 2021 1 [("Sunday", ["X|Y"])] none).getD []).map recordFields := by
  decide

/-- C9, amended: for every roster whose fields contain no pipe, double
quote, or line-break characters, rendering to the Markdown pipe table and
parsing the text back (splitting rows on newlines and fields on pipes,
dropping the header and separator rows) yields exactly the original
record tuples. -/
theorem c9_roundtrip_clean (f : List ShiftRecord) (h : ∀ r ∈ f, cleanRec r) :
    parseMarkdown (to_markdown f) = f.map recordFields := by
  unfold parseMarkdown
  have hhdr : rowLine ["date", "weekday", "volunteers", "notes"] =
      "date|weekday|volunteers|notes" := by decide
  have hsep : rowLine ["---", "---", "---", "---"] = "---|---|---|---" := by decide
  have hdata : (to_markdown f).data =
      ("date|weekday|volunteers|notes" : String).data ++
        '\n' :: (("---|---|---|---" : String).data ++ '\n' :: (bodyLines f).data) := by
    unfold to_markdown
    rw [hhdr, hsep]
    simp [String.data_append]
  rw [hdata]
  rw [splitOnChar_append '\n' _ _ (by decide)]
  rw [splitOnChar_append '\n' _ _ (by decide)]
  rw [bodyLines_split f h]
  show (((f.map (fun r => (rowLine (recordFields r)).data)) ++ [[]]).filter (· ≠ [])).map _ = _
  rw [List.filter_append]
  have h1 : ([([] : List Char)].filter (fun l => decide (l ≠ []))) = [] := rfl
  rw [h1, List.append_nil]
  have h2 : (f.map (fun r => (rowLine (recordFields r)).data)).filter (fun l => decide (l ≠ [])) =
      f.map (fun r => (rowLine (recordFields r)).data) := by
    rw [List.filter_eq_self]
    intro a ha
    obtain ⟨r, hr, rfl⟩ := List.mem_map.mp ha
    simpa using row_data_ne_nil r (h r hr)
  rw [h2, List.map_map]
  apply List.map_congr_left
  intro r hr
  show ((splitOnChar '|' ((rowLine (recordFields r)).data)).map fun cs => (⟨cs⟩ : String)) =
    recordFields r
  rw [splitRow_fields r (h r hr)]
  rfl

theorem c9_roundtrip_clean_w :
    parseMarkdown (to_markdown sampleRoster) = sampleRoster.map recordFields :=
  c9_roundtrip_clean sampleRoster (by decide)

/-- C10: a meeting time whose weekday is not a key of the mapping is
silently ignored: the roster equals the one built with no meeting time,
and all its notes fields are empty. -/
theorem c10_ignored_meeting (y m : Nat) (vbw : List (String × List String))
    (mt : MeetingTime) (hmt : lookupKey vbw mt.weekday = none) :
    build_roster y m vbw (some mt) = build_roster y m vbw none ∧
    (∀ records, build_roster y m vbw none = some records → ∀ r ∈ records, r.notes = "") := by
  constructor
  · unfold build_roster
    split
    · apply congrArg some
      apply List.map_congr_left
      intro x hx
      have hk := (List.mem_filter.mp hx).2
      unfold buildRec notesFor
      have hne : ¬ dayName x.year x.month x.day = mt.weekday := by
        intro he
        rw [he] at hk
        rw [hmt] at hk
        simp at hk
      simp only [hne, false_and, if_false]
    · rfl
  · intro records h r hr
    have hv := build_roster_some y m vbw none records h
    rw [build_roster_eq y m vbw none hv] at h
    obtain rfl := (Option.some.inj h).symm
    obtain ⟨d, _, rfl⟩ := List.mem_map.mp hr
    rfl

theorem c10_ignored_meeting_w :
    build_roster 2021 1 sampleVbw (some ⟨"Monday", 1, "15:00", "16:00"⟩) =
      build_roster 2021 1 sampleVbw none :=
  (c10_ignored_meeting 2021 1 sampleVbw ⟨"Monday", 1, "15:00", "16:00"⟩ (by decide)).1
